import Mathlib

/-!
Shallow embedding of the ClaudeWebScraper repository (netsuite_scraper.py,
apify_scraper.py, apify_web_scraper.py) and proofs about its Link Discovery,
Record Extraction, and Apify-token logic.

HTML documents parsed by BeautifulSoup are modelled as a tree of nodes
(`Node`); Python string primitives used by the code (`split`, `join`,
`replace`, `strip`, `lower`, `startswith`, `endswith`, substring `in`) are
modelled as executable functions on `List Char` / `String`.
-/

namespace Scraper

/-! ## Python string primitives -/

/-- Lexicographic code-point comparison of character lists, the order Python
uses to compare strings (and hence the order used by `sorted`). -/
def listLt : List Char → List Char → Bool
  | [], [] => false
  | [], _ :: _ => true
  | _ :: _, [] => false
  | a :: as, b :: bs => if a < b then true else if b < a then false else listLt as bs

/-- Python `pat in s` (substring test). -/
def containsSub (s pat : String) : Bool :=
  s.data.tails.any (fun t => pat.data.isPrefixOf t)

/-- Python `s.startswith(p)`. -/
def pyStartsWith (s p : String) : Bool :=
  p.data.isPrefixOf s.data

/-- Python `s.endswith(p)`. -/
def pyEndsWith (s p : String) : Bool :=
  p.data.isSuffixOf s.data

/-- Python `s.lower()` (ASCII case folding suffices for this repository). -/
def pyLower (s : String) : String :=
  String.mk (s.data.map Char.toLower)

/-- Python `s.strip()`: drop leading and trailing whitespace. -/
def pyStrip (s : String) : String :=
  String.mk (((s.data.dropWhile Char.isWhitespace).reverse.dropWhile Char.isWhitespace).reverse)

/-- Python `s.split(sep)` for a one-character separator: always returns at
least one (possibly empty) group. -/
def pySplit (sep : Char) : List Char → List (List Char)
  | [] => [[]]
  | c :: rest =>
    if c = sep then
      [] :: pySplit sep rest
    else
      match pySplit sep rest with
      | g :: gs => (c :: g) :: gs
      | [] => [[c]]

/-- Python `sep.join(groups)` for a one-character separator. -/
def pyJoin (sep : Char) : List (List Char) → List Char
  | [] => []
  | [g] => g
  | g :: gs => g ++ sep :: pyJoin sep gs

/-- Scanner for Python `s.replace(pat, new)`: with `skip = 0` test for the
pattern at the current position (a hit emits the replacement and consumes the
remaining matched characters through the skip counter); with `skip > 0`
consume one already-matched character. -/
def pyReplaceAux (pat new : List Char) : Nat → List Char → List Char
  | _, [] => []
  | Nat.succ skip, _ :: rest => pyReplaceAux pat new skip rest
  | 0, c :: rest =>
    if pat.isPrefixOf (c :: rest) && !pat.isEmpty then
      new ++ pyReplaceAux pat new (pat.length - 1) rest
    else
      c :: pyReplaceAux pat new 0 rest

/-- Python `s.replace(pat, new)`: replace non-overlapping occurrences left to
right (the source only calls it with the non-empty pattern ".html"; an empty
pattern is left untouched here). -/
def pyReplace (pat new s : List Char) : List Char :=
  pyReplaceAux pat new 0 s

/-! ## The HTML document model

A parsed page is a tree of element and text nodes, the shape BeautifulSoup
exposes to `netsuite_scraper.py`.  The whole document is an element whose
tag is "[document]" (as in BeautifulSoup), so that `find_all` over the soup
object and `find_all` over an inner container are the same function. -/

inductive Node where
  | text (s : String)
  | elem (tag : String) (attrs : List (String × String)) (children : List Node)

mutual
def nodeDecEq : (a b : Node) → Decidable (a = b)
  | .text s, .text t =>
    match decEq s t with
    | isTrue h => isTrue (h ▸ rfl)
    | isFalse h => isFalse (fun he => h (Node.text.inj he))
  | .text _, .elem _ _ _ => isFalse (fun h => Node.noConfusion h)
  | .elem _ _ _, .text _ => isFalse (fun h => Node.noConfusion h)
  | .elem t1 a1 c1, .elem t2 a2 c2 =>
    match decEq t1 t2, decEq a1 a2, nodeListDecEq c1 c2 with
    | isTrue h1, isTrue h2, isTrue h3 => isTrue (by rw [h1, h2, h3])
    | isFalse h1, _, _ => isFalse (fun he => h1 (Node.elem.inj he).1)
    | _, isFalse h2, _ => isFalse (fun he => h2 (Node.elem.inj he).2.1)
    | _, _, isFalse h3 => isFalse (fun he => h3 (Node.elem.inj he).2.2)
def nodeListDecEq : (a b : List Node) → Decidable (a = b)
  | [], [] => isTrue rfl
  | [], _ :: _ => isFalse (fun h => List.noConfusion h)
  | _ :: _, [] => isFalse (fun h => List.noConfusion h)
  | x :: xs, y :: ys =>
    match nodeDecEq x y, nodeListDecEq xs ys with
    | isTrue h1, isTrue h2 => isTrue (by rw [h1, h2])
    | isFalse h1, _ => isFalse (fun he => h1 (List.cons.inj he).1)
    | _, isFalse h2 => isFalse (fun he => h2 (List.cons.inj he).2)
end

instance : DecidableEq Node := nodeDecEq

mutual
/-- A node followed by all of its descendants, in document (pre)order: the
order in which BeautifulSoup's `next_element` chain visits nodes. -/
def preorderNode : Node → List Node
  | .text s => [.text s]
  | .elem t a cs => .elem t a cs :: preorderList cs
/-- Document-order flattening of a forest of sibling subtrees. -/
def preorderList : List Node → List Node
  | [] => []
  | c :: cs => preorderNode c ++ preorderList cs
end

/-- All proper descendants of a node in document order: the search space of
BeautifulSoup's `find` / `find_all` called on that node. -/
def descendants : Node → List Node
  | .text _ => []
  | .elem _ _ cs => preorderList cs

mutual
/-- The raw text fragments below a node, in document order. -/
def textsNode : Node → List String
  | .text s => [s]
  | .elem _ _ cs => textsList cs
def textsList : List Node → List String
  | [] => []
  | c :: cs => textsNode c ++ textsList cs
end

/-- BeautifulSoup `get_text(strip=True)`: strip every text fragment and
concatenate. -/
def getTextStrip (n : Node) : String :=
  String.join ((textsNode n).map pyStrip)

/-- The plain concatenated text of a node (BeautifulSoup `get_text()`). -/
def getTextRaw (n : Node) : String :=
  String.join (textsNode n)

/-- BeautifulSoup's `.string`: descends through single-child wrappers and
returns the unique text fragment, `none` when the node has zero or several
children at some level. -/
def nodeString : Node → Option String
  | .text s => some s
  | .elem _ _ [c] => nodeString c
  | .elem _ _ _ => none

/-- Does the node carry the given element tag? -/
def isNamedTag (t : String) (n : Node) : Bool :=
  match n with
  | .elem tag _ _ => tag == t
  | .text _ => false

/-- Attribute lookup, BeautifulSoup `tag.get(key)`. -/
def getAttr (n : Node) (k : String) : Option String :=
  match n with
  | .elem _ attrs _ => attrs.lookup k
  | .text _ => none

/-- BeautifulSoup `node.find_all(t)`: every descendant element with tag `t`,
in document order. -/
def findAll (t : String) (n : Node) : List Node :=
  (descendants n).filter (isNamedTag t)

/-- First index satisfying a predicate, used to model `soup.find` results as
positions in the document-order flattening. -/
def findIdxFrom (p : Node → Bool) : List Node → Option Nat
  | [] => none
  | x :: xs => if p x then some 0 else (findIdxFrom p xs).map (· + 1)

/-! ## Record extraction (netsuite_scraper.py) -/

/-- One parsed row of the Fields table (`parse_field_row`'s result dict). -/
structure FieldDescriptor where
  internalId : String
  type : String
  nlsapiSubmitField : String
  label : String
  required : Bool
  help : String
deriving DecidableEq, Repr

/-- One extracted record page (`extract_record_data`'s result dict). -/
structure RecordEntry where
  recordName : String
  recordInternalId : String
  fields : List FieldDescriptor
deriving DecidableEq, Repr

/-- `cells = row.find_all('td')` in `parse_field_row`. -/
def rowCells (row : Node) : List Node :=
  findAll "td" row

/-- `parse_field_row(row)`: `None` for a row with fewer than six `td` cells,
otherwise the six stripped cell texts, with `required` decided by
`cells[4].get_text(strip=True).lower() == 'true'`. -/
def parse_field_row (row : Node) : Option FieldDescriptor :=
  if h : (rowCells row).length < 6 then none
  else
    some {
      internalId := getTextStrip ((rowCells row)[0])
      type := getTextStrip ((rowCells row)[1])
      nlsapiSubmitField := getTextStrip ((rowCells row)[2])
      label := getTextStrip ((rowCells row)[3])
      required := pyLower (getTextStrip ((rowCells row)[4])) == "true"
      help := getTextStrip ((rowCells row)[5]) }

/-- The matcher of `soup.find(heading_tag, string=lambda x: x and 'Fields' in
str(x))`: an element with the given tag whose `.string` is a non-empty text
containing "Fields". -/
def headingMatches (t : String) (n : Node) : Bool :=
  isNamedTag t n &&
    (match nodeString n with
     | some s => !s.isEmpty && containsSub s "Fields"
     | none => false)

/-- The heading-search loop `for heading_tag in ['h2','h3','h4','h5']`: the
first tag level with a match wins; the result is the position of the found
heading in the document-order flattening of the soup. -/
def fieldsHeadingIdx (soup : Node) : Option Nat :=
  (["h2", "h3", "h4", "h5"] : List String).findSome?
    (fun t => findIdxFrom (headingMatches t) (preorderNode soup))

/-- `fields_heading.find_next('table')`: the first table element strictly
after the found heading in document order (`none` when there is no Fields
heading or no following table). -/
def findFieldsTable (soup : Node) : Option Node :=
  match fieldsHeadingIdx soup with
  | none => none
  | some i => ((preorderNode soup).drop (i + 1)).find? (isNamedTag "table")

/-- `rows = table.find_all('tr')`. -/
def tableRows (table : Node) : List Node :=
  findAll "tr" table

/-- The row loop `for row in rows[1:]`: parse every non-header row, keeping
the successful parses. -/
def extractFields (table : Node) : List FieldDescriptor :=
  ((tableRows table).drop 1).filterMap parse_field_row

/-- `url.split('/')[-1].replace('.html', '')` in `extract_record_data`. -/
def recordInternalIdOfUrl (url : String) : String :=
  String.mk (pyReplace ".html".data [] ((pySplit '/' url.data).getLastD []))

/-- `extract_record_data(page, url)` after the page has been fetched and
parsed into `soup`: fails without an `h1`, fails without a Fields heading
followed by a table, and otherwise builds the record entry. -/
def extract_record_data (soup : Node) (url : String) : Option RecordEntry :=
  match (descendants soup).find? (isNamedTag "h1") with
  | none => none
  | some h1 =>
    match findFieldsTable soup with
    | none => none
    | some table =>
      some {
        recordName := getTextStrip h1
        recordInternalId := recordInternalIdOfUrl url
        fields := extractFields table }

/-! ## Link discovery (netsuite_scraper.py, get_record_links) -/

/-- The three-way href resolution repeated in both strategies of
`get_record_links`: pass `http...` hrefs through, prefix root-relative hrefs
with `'/'.join(start_url.split('/')[:3])`, and join the rest to
`'/'.join(start_url.split('/')[:-1])` with a slash. -/
def makeFullUrl (start_url href : String) : String :=
  if pyStartsWith href "http" then href
  else if pyStartsWith href "/" then
    String.mk (pyJoin '/' ((pySplit '/' start_url.data).take 3)) ++ href
  else
    String.mk (pyJoin '/' ((pySplit '/' start_url.data).dropLast)) ++ "/" ++ href

/-- `node.find_all('a', href=True)`: anchor descendants carrying an href. -/
def anchorsWithHref (n : Node) : List Node :=
  (descendants n).filter (fun l => isNamedTag "a" l && (getAttr l "href").isSome)

/-- The strategy-1 candidate test and resolution: keep an anchor when
`'/record/' in href and href.endswith('.html')`. -/
def candidate1 (start_url : String) (link : Node) : Option String :=
  match getAttr link "href" with
  | none => none
  | some href =>
    if containsSub href "/record/" && pyEndsWith href ".html" then
      some (makeFullUrl start_url href)
    else none

/-- The strategy-2 candidate test and resolution: keep an anchor when
`href.endswith('.html') and '/record/' in href`. -/
def candidate2 (start_url : String) (link : Node) : Option String :=
  match getAttr link "href" with
  | none => none
  | some href =>
    if pyEndsWith href ".html" && containsSub href "/record/" then
      some (makeFullUrl start_url href)
    else none

/-- Strategy 1: scan every anchor of the whole document. -/
def strategy1Urls (soup : Node) (start_url : String) : List String :=
  (anchorsWithHref soup).filterMap (candidate1 start_url)

/-- `lambda x: x and 'nav' in x.lower()` applied to an id attribute. -/
def idMatchesNav (n : Node) : Bool :=
  match getAttr n "id" with
  | some v => !v.isEmpty && containsSub (pyLower v) "nav"
  | none => false

/-- `lambda x: x and any(term in str(x).lower() for term in toks)` applied to
a class attribute. -/
def classMatchesAny (toks : List String) (n : Node) : Bool :=
  match getAttr n "class" with
  | some v => !v.isEmpty && toks.any (fun t => containsSub (pyLower v) t)
  | none => false

/-- The containers produced by the `nav_selectors` loop of strategy 2: all
`nav` and `aside` elements, `div`s whose id mentions "nav", `div`s whose
class mentions one of nav/sidebar/menu/toc/tree, and `ul`s whose class
mentions one of nav/menu/tree. -/
def navContainers (soup : Node) : List Node :=
  findAll "nav" soup ++ findAll "aside" soup
    ++ (findAll "div" soup).filter idMatchesNav
    ++ (findAll "div" soup).filter (classMatchesAny ["nav", "sidebar", "menu", "toc", "tree"])
    ++ (findAll "ul" soup).filter (classMatchesAny ["nav", "menu", "tree"])

/-- Strategy 2: scan the anchors inside every navigation container. -/
def strategy2Urls (soup : Node) (start_url : String) : List String :=
  (navContainers soup).flatMap (fun c => (anchorsWithHref c).filterMap (candidate2 start_url))

/-- Insert into a strictly-sorted duplicate-free list, preserving both
properties: the building block for modelling `sorted(list(record_links))`
over the accumulated set. -/
def insertSorted (x : String) : List String → List String
  | [] => [x]
  | y :: ys =>
    if x = y then y :: ys
    else if listLt x.data y.data then x :: y :: ys
    else y :: insertSorted x ys

/-- `sorted(list(s))` for the set `s` of collected links: the strictly
ascending enumeration of the elements of `l`. -/
def sortedDedup (l : List String) : List String :=
  l.foldl (fun acc x => insertSorted x acc) []

/-- `get_record_links(page, start_url)` after the start page has been parsed
into `soup`: the union of both strategies' links as a sorted list. -/
def get_record_links (soup : Node) (start_url : String) : List String :=
  sortedDedup (strategy1Urls soup start_url ++ strategy2Urls soup start_url)

/-! ## The main loop (netsuite_scraper.py, main) -/

/-- One iteration of the processing loop: navigate (a navigation failure is
caught inside `extract_record_data` and yields `None`), then extract. -/
def processUrl (fetch : String → Option Node) (url : String) : Option RecordEntry :=
  (fetch url).bind (fun soup => extract_record_data soup url)

/-- The `for i, url in enumerate(record_links)` loop of `main`: successful
extractions are appended, failures are skipped. -/
def processUrls (fetch : String → Option Node) (urls : List String) : List RecordEntry :=
  urls.filterMap (processUrl fetch)

/-- `main` after the start page has been parsed: abort with no output when
link discovery returns nothing, otherwise run the loop and write the
results. -/
def mainRun (fetch : String → Option Node) (startSoup : Node) (startUrl : String) :
    Option (List RecordEntry) :=
  let links := get_record_links startSoup startUrl
  if links = [] then none
  else some (processUrls fetch links)

/-! ## The Apify wrappers (apify_scraper.py, apify_web_scraper.py) -/

/-- Python `a or b` on an optional string: the first truthy operand (both
`None` and the empty string are falsy). -/
def pyOrStr (a b : Option String) : Option String :=
  match a with
  | some s => if s = "" then b else some s
  | none => b

/-- `ApifyWebScraper.__init__`: resolve the token as
`api_token or os.getenv('APIFY_API_TOKEN')`, raise `ValueError` when the
result is falsy, otherwise construct the client (identified here by its
token). -/
def apifyWebScraperInit (api_token : Option String) (env : String → Option String) :
    Except String String :=
  match pyOrStr api_token (env "APIFY_API_TOKEN") with
  | none => Except.error "Apify API token is required. Set APIFY_API_TOKEN environment variable or pass api_token parameter."
  | some t =>
    if t = "" then
      Except.error "Apify API token is required. Set APIFY_API_TOKEN environment variable or pass api_token parameter."
    else Except.ok t

/-- `get_apify_client` from apify_web_scraper.py: read `APIFY_TOKEN` from the
environment, raise `RuntimeError` when it is unset or empty. -/
def get_apify_client (env : String → Option String) : Except String String :=
  match env "APIFY_TOKEN" with
  | none => Except.error "APIFY_TOKEN is not set. Copy .env.example to .env and provide your token."
  | some t =>
    if t = "" then
      Except.error "APIFY_TOKEN is not set. Copy .env.example to .env and provide your token."
    else Except.ok t

/-! ## The spec's description of the record internal id (for comparison) -/

/-- The spec's reading of `recordInternalId`: the trailing path segment of the
source URL with its extension (the part after the final dot) stripped. -/
def specRecordInternalId (url : String) : String :=
  let seg := (pySplit '/' url.data).getLastD []
  let groups := pySplit '.' seg
  if groups.length ≤ 1 then String.mk seg
  else String.mk (pyJoin '.' groups.dropLast)

/-! ## Concrete fixture pages used by witnesses and counterexamples -/

/-- A six-celled table cell. -/
def tdCell (s : String) : Node :=
  .elem "td" [] [.text s]

/-- A fixture record page: one `h1` "Widget", one `h3` "Fields", and a table
with one header row, one six-cell data row and one four-cell data row (the
end-to-end shape named in the specification). -/
def fixtureDoc : Node :=
  .elem "[document]" []
    [.elem "html" []
      [.elem "body" []
        [.elem "h1" [] [.text "Widget"],
         .elem "h3" [] [.text "Fields"],
         .elem "table" []
           [.elem "tr" [] [.elem "th" [] [.text "Internal ID"]],
            .elem "tr" [] [tdCell "amount", tdCell "currency", tdCell "T",
                           tdCell "Amount", tdCell "TRUE", tdCell "Help text"],
            .elem "tr" [] [tdCell "short", tdCell "row", tdCell "x", tdCell "y"]]]]]

/-- The table node of `fixtureDoc`. -/
def fixtureTable : Node :=
  .elem "table" []
    [.elem "tr" [] [.elem "th" [] [.text "Internal ID"]],
     .elem "tr" [] [tdCell "amount", tdCell "currency", tdCell "T",
                    tdCell "Amount", tdCell "TRUE", tdCell "Help text"],
     .elem "tr" [] [tdCell "short", tdCell "row", tdCell "x", tdCell "y"]]

/-- A row whose fifth cell is "TRUE " with a trailing space. -/
def trueSpaceRow : Node :=
  .elem "tr" [] [tdCell "id", tdCell "ty", tdCell "nl", tdCell "lb",
                 .elem "td" [] [.text "TRUE "], tdCell "hp"]

/-- A record page with an `h1` but no Fields heading at any level. -/
def noFieldsDoc : Node :=
  .elem "[document]" []
    [.elem "body" []
      [.elem "h1" [] [.text "Widget"],
       .elem "h2" [] [.text "Filters"]]]

/-- A start page with two distinct anchors that resolve to the same URL. -/
def twoAnchorsDoc : Node :=
  .elem "[document]" []
    [.elem "body" []
      [.elem "a" [("href", "https://h/record/x.html")] [.text "X"],
       .elem "a" [("href", "/record/x.html")] [.text "X again"]]]

/-- A start page whose only anchor is not a record link. -/
def noLinksDoc : Node :=
  .elem "[document]" []
    [.elem "body" [] [.elem "a" [("href", "other.txt")] [.text "t"]]]

/-- An environment with no variables set. -/
def envEmpty : String → Option String := fun _ => none

/-- An environment holding only `APIFY_API_TOKEN`. -/
def envApiToken : String → Option String :=
  fun k => if k = "APIFY_API_TOKEN" then some "tok" else none

/-- An environment holding only `APIFY_TOKEN`. -/
def envToken : String → Option String :=
  fun k => if k = "APIFY_TOKEN" then some "tok" else none

/-! ## The comparison order: `listLt` is Python's (and Lean's) string order -/

theorem listLt_iff_lex : ∀ a b : List Char, listLt a b = true ↔ List.Lex (· < ·) a b := by
  intro a
  induction a with
  | nil =>
    intro b
    cases b with
    | nil =>
      simp only [listLt, Bool.false_eq_true, false_iff]
      intro h
      cases h
    | cons x xs =>
      simp only [listLt, true_iff]
      exact List.Lex.nil
  | cons a as ih =>
    intro b
    cases b with
    | nil =>
      simp only [listLt, Bool.false_eq_true, false_iff]
      intro h
      cases h
    | cons x xs =>
      simp only [listLt]
      by_cases h1 : a < x
      · simp only [h1, if_true, true_iff]
        exact List.Lex.rel h1
      · by_cases h2 : x < a
        · simp only [h1, if_false, h2, if_true, Bool.false_eq_true, false_iff]
          intro h
          cases h with
          | rel h => exact h1 h
          | cons h => exact lt_irrefl _ h2
        · simp only [h1, if_false, h2, if_false]
          have hax : a = x := le_antisymm (not_lt.mp h2) (not_lt.mp h1)
          subst hax
          constructor
          · intro h
            exact List.Lex.cons ((ih xs).mp h)
          · intro h
            cases h with
            | rel h => exact absurd h h1
            | cons h => exact (ih xs).mpr h

theorem strLt_iff (s t : String) : listLt s.data t.data = true ↔ s < t := by
  rw [listLt_iff_lex, String.lt_iff_toList_lt]
  exact Iff.rfl

/-! ## `sortedDedup` really is `sorted(list(set(...)))` -/

theorem mem_insertSorted (x z : String) :
    ∀ l : List String, z ∈ insertSorted x l ↔ z = x ∨ z ∈ l := by
  intro l
  induction l with
  | nil => simp [insertSorted]
  | cons y ys ih =>
    simp only [insertSorted]
    split_ifs with h1 h2
    · subst h1
      simp only [List.mem_cons]
      tauto
    · simp only [List.mem_cons]
    · simp only [List.mem_cons, ih]
      tauto

theorem pairwise_insertSorted (x : String) :
    ∀ l : List String, List.Pairwise (· < ·) l →
      List.Pairwise (· < ·) (insertSorted x l) := by
  intro l
  induction l with
  | nil =>
    intro _
    simp [insertSorted]
  | cons y ys ih =>
    intro h
    rw [List.pairwise_cons] at h
    simp only [insertSorted]
    split_ifs with h1 h2
    · exact List.pairwise_cons.mpr h
    · have hxylt : x < y := (strLt_iff x y).mp h2
      refine List.pairwise_cons.mpr ⟨?_, List.pairwise_cons.mpr h⟩
      intro z hz
      rw [List.mem_cons] at hz
      cases hz with
      | inl hz => exact hz ▸ hxylt
      | inr hz => exact lt_trans hxylt (h.1 z hz)
    · have hyx : y < x := by
        have hnlt : ¬ x < y := fun hl => h2 ((strLt_iff x y).mpr hl)
        exact lt_of_le_of_ne (not_lt.mp hnlt) (fun he => h1 he.symm)
      refine List.pairwise_cons.mpr ⟨?_, ih h.2⟩
      intro z hz
      rw [mem_insertSorted] at hz
      cases hz with
      | inl hz => exact hz ▸ hyx
      | inr hz => exact h.1 z hz

theorem mem_foldl_insertSorted (z : String) :
    ∀ (l acc : List String),
      (z ∈ l.foldl (fun a x => insertSorted x a) acc ↔ z ∈ acc ∨ z ∈ l) := by
  intro l
  induction l with
  | nil => simp
  | cons x xs ih =>
    intro acc
    simp only [List.foldl_cons, ih, mem_insertSorted, List.mem_cons]
    tauto

theorem mem_sortedDedup (z : String) (l : List String) :
    z ∈ sortedDedup l ↔ z ∈ l := by
  rw [sortedDedup, mem_foldl_insertSorted]
  simp

theorem pairwise_foldl_insertSorted :
    ∀ (l acc : List String), List.Pairwise (· < ·) acc →
      List.Pairwise (· < ·) (l.foldl (fun a x => insertSorted x a) acc) := by
  intro l
  induction l with
  | nil =>
    intro acc h
    exact h
  | cons x xs ih =>
    intro acc h
    exact ih _ (pairwise_insertSorted x acc h)

theorem pairwise_sortedDedup (l : List String) :
    List.Pairwise (· < ·) (sortedDedup l) :=
  pairwise_foldl_insertSorted l [] List.Pairwise.nil

/-- Two strictly sorted lists with the same members are equal. -/
theorem sorted_eq_of_mem_iff :
    ∀ (l₁ l₂ : List String), List.Pairwise (· < ·) l₁ → List.Pairwise (· < ·) l₂ →
      (∀ z, z ∈ l₁ ↔ z ∈ l₂) → l₁ = l₂ := by
  intro l₁
  induction l₁ with
  | nil =>
    intro l₂ _ _ hm
    cases l₂ with
    | nil => rfl
    | cons b bs => exact absurd ((hm b).mpr (List.mem_cons_self b bs)) (List.not_mem_nil b)
  | cons a as ih =>
    intro l₂ h₁ h₂ hm
    cases l₂ with
    | nil => exact absurd ((hm a).mp (List.mem_cons_self a as)) (List.not_mem_nil a)
    | cons b bs =>
      have hab : a = b := by
        have ha : a ∈ b :: bs := (hm a).mp (List.mem_cons_self a as)
        rw [List.mem_cons] at ha
        cases ha with
        | inl h => exact h
        | inr h =>
          have hba : b < a := List.rel_of_pairwise_cons h₂ h
          have hb : b ∈ a :: as := (hm b).mpr (List.mem_cons_self b bs)
          rw [List.mem_cons] at hb
          cases hb with
          | inl h' => exact h'.symm
          | inr h' => exact absurd (List.rel_of_pairwise_cons h₁ h') (lt_asymm hba)
      subst hab
      have htails : ∀ z, z ∈ as ↔ z ∈ bs := by
        intro z
        constructor
        · intro hz
          have : z ∈ a :: bs := (hm z).mp (List.mem_cons.mpr (Or.inr hz))
          rw [List.mem_cons] at this
          cases this with
          | inl h => exact absurd (List.rel_of_pairwise_cons h₁ hz) (h ▸ lt_irrefl z)
          | inr h => exact h
        · intro hz
          have : z ∈ a :: as := (hm z).mpr (List.mem_cons.mpr (Or.inr hz))
          rw [List.mem_cons] at this
          cases this with
          | inl h => exact absurd (List.rel_of_pairwise_cons h₂ hz) (h ▸ lt_irrefl z)
          | inr h => exact h
      rw [ih bs (List.pairwise_cons.mp h₁).2 (List.pairwise_cons.mp h₂).2 htails]

/-! ## Document-order traversal is transitive -/

mutual
theorem mem_preorderNode_trans : ∀ (n c m : Node),
    c ∈ preorderNode n → m ∈ preorderNode c → m ∈ preorderNode n
  | .text s, c, m, hc, hm => by
    simp only [preorderNode, List.mem_singleton] at hc
    subst hc
    exact hm
  | .elem t a cs, c, m, hc, hm => by
    simp only [preorderNode, List.mem_cons] at hc
    cases hc with
    | inl h =>
      subst h
      exact hm
    | inr h =>
      simp only [preorderNode, List.mem_cons]
      exact Or.inr (mem_preorderList_trans cs c m h hm)
theorem mem_preorderList_trans : ∀ (cs : List Node) (c m : Node),
    c ∈ preorderList cs → m ∈ preorderNode c → m ∈ preorderList cs
  | [], c, m, hc, _ => by
    simp only [preorderList, List.not_mem_nil] at hc
  | x :: xs, c, m, hc, hm => by
    simp only [preorderList, List.mem_append] at hc ⊢
    cases hc with
    | inl h => exact Or.inl (mem_preorderNode_trans x c m h hm)
    | inr h => exact Or.inr (mem_preorderList_trans xs c m h hm)
end

theorem mem_preorderNode_of_descendants (c m : Node) (hm : m ∈ descendants c) :
    m ∈ preorderNode c := by
  cases c with
  | text s => simp only [descendants, List.not_mem_nil] at hm
  | elem t a cs =>
    simp only [preorderNode, List.mem_cons]
    exact Or.inr hm

/-- What BeautifulSoup guarantees about nested `find_all` searches: a
descendant of a descendant is a descendant. -/
theorem mem_descendants_trans (d c m : Node)
    (hc : c ∈ descendants d) (hm : m ∈ descendants c) : m ∈ descendants d := by
  cases d with
  | text s => simp only [descendants, List.not_mem_nil] at hc
  | elem t a cs =>
    exact mem_preorderList_trans cs c m hc (mem_preorderNode_of_descendants c m hm)

/-! ## `.string` versus the node text -/

theorem join_singleton (s : String) : String.join [s] = s := by
  cases s
  rfl

theorem nodeString_texts : ∀ (n : Node) (s : String),
    nodeString n = some s → textsNode n = [s]
  | .text t, s, h => by
    simp only [nodeString, Option.some.injEq] at h
    subst h
    rfl
  | .elem tg a [c], s, h => by
    simp only [nodeString] at h
    simp only [textsNode, textsList, List.append_nil]
    exact nodeString_texts c s h
  | .elem tg a [], s, h => by
    simp only [nodeString] at h
    exact Option.noConfusion h
  | .elem tg a (c₁ :: c₂ :: cs), s, h => by
    simp only [nodeString] at h
    exact Option.noConfusion h

theorem getTextRaw_of_nodeString (n : Node) (s : String)
    (h : nodeString n = some s) : getTextRaw n = s := by
  rw [getTextRaw, nodeString_texts n s h, join_singleton]

/-! ## Row parsing -/

theorem parse_field_row_eq_none_iff (row : Node) :
    parse_field_row row = none ↔ (rowCells row).length < 6 := by
  simp only [parse_field_row]
  split_ifs with h
  · simp [h]
  · simp [h]

theorem length_filterMap_parse :
    ∀ l : List Node,
      (l.filterMap parse_field_row).length
        + l.countP (fun r => decide ((rowCells r).length < 6)) = l.length := by
  intro l
  induction l with
  | nil => rfl
  | cons r rs ih =>
    by_cases h : (rowCells r).length < 6
    · have hn : parse_field_row r = none := (parse_field_row_eq_none_iff r).mpr h
      simp only [List.filterMap_cons, hn, List.countP_cons, List.length_cons]
      rw [if_pos (decide_eq_true h)]
      omega
    · have hn : parse_field_row r ≠ none :=
        fun hc => h ((parse_field_row_eq_none_iff r).mp hc)
      obtain ⟨d, hd⟩ := Option.ne_none_iff_exists'.mp hn
      simp only [List.filterMap_cons, hd, List.countP_cons, List.length_cons]
      rw [if_neg (fun hc => h (of_decide_eq_true hc))]
      omega

/-! ## Properties of the split / join / replace models -/

theorem pySplit_cons_head (sep : Char) (s : List Char) :
    ∃ g gs, pySplit sep s = g :: gs := by
  cases s with
  | nil => exact ⟨[], [], rfl⟩
  | cons c cs =>
    by_cases hc : c = sep
    · exact ⟨[], pySplit sep cs, by simp [pySplit, hc]⟩
    · cases hr : pySplit sep cs with
      | nil => exact ⟨[c], [], by simp [pySplit, hc, hr]⟩
      | cons g gs => exact ⟨c :: g, gs, by simp [pySplit, hc, hr]⟩

theorem pySplit_sepfree (sep : Char) :
    ∀ xs : List Char, sep ∉ xs → pySplit sep xs = [xs] := by
  intro xs
  induction xs with
  | nil => intro _; rfl
  | cons c cs ih =>
    intro h
    have hc : ¬ c = sep := fun he => h (he ▸ List.mem_cons_self c cs)
    have hcs : sep ∉ cs := fun hm => h (List.mem_cons.mpr (Or.inr hm))
    simp [pySplit, hc, ih hcs]

theorem pySplit_append (sep : Char) :
    ∀ xs ys : List Char, sep ∉ xs →
      pySplit sep (xs ++ sep :: ys) = xs :: pySplit sep ys := by
  intro xs
  induction xs with
  | nil =>
    intro ys _
    simp [pySplit]
  | cons c cs ih =>
    intro ys h
    have hc : ¬ c = sep := fun he => h (he ▸ List.mem_cons_self c cs)
    have hcs : sep ∉ cs := fun hm => h (List.mem_cons.mpr (Or.inr hm))
    simp [pySplit, hc, ih ys hcs]

theorem pySplit_concat_last (sep : Char) (u : List Char) (hu : sep ∉ u) :
    ∀ t : List Char, pySplit sep (t ++ sep :: u) = pySplit sep t ++ [u] := by
  intro t
  induction t with
  | nil =>
    simp [pySplit, pySplit_sepfree sep u hu]
  | cons c cs ih =>
    by_cases hc : c = sep
    · simp [pySplit, hc, ih]
    · obtain ⟨g, gs, hg⟩ := pySplit_cons_head sep cs
      have ih' : pySplit sep (cs ++ sep :: u) = g :: (gs ++ [u]) := by
        rw [ih, hg, List.cons_append]
      have hl : pySplit sep ((c :: cs) ++ sep :: u) = (c :: g) :: (gs ++ [u]) := by
        rw [List.cons_append]
        simp [pySplit, hc, ih']
      have hr : pySplit sep (c :: cs) = (c :: g) :: gs := by
        simp [pySplit, hc, hg]
      rw [hl, hr]
      simp

theorem pyJoin_pySplit (sep : Char) :
    ∀ s : List Char, pyJoin sep (pySplit sep s) = s := by
  intro s
  induction s with
  | nil => rfl
  | cons c cs ih =>
    obtain ⟨g, gs, hg⟩ := pySplit_cons_head sep cs
    rw [hg] at ih
    by_cases hc : c = sep
    · subst hc
      have hps : pySplit c (c :: cs) = [] :: g :: gs := by
        simp [pySplit, hg]
      rw [hps]
      cases gs with
      | nil =>
        simp only [pyJoin] at ih ⊢
        rw [List.nil_append, ih]
      | cons k ks =>
        simp only [pyJoin] at ih ⊢
        rw [List.nil_append, ih]
    · have hps : pySplit sep (c :: cs) = (c :: g) :: gs := by
        simp [pySplit, hc, hg]
      rw [hps]
      cases gs with
      | nil =>
        simp only [pyJoin] at ih ⊢
        rw [ih]
      | cons k ks =>
        simp only [pyJoin] at ih ⊢
        rw [← ih]
        simp

theorem pyReplace_single_trailing_occurrence (base : List Char)
    (h : ∀ i, i < base.length → ¬ (".html".data.isPrefixOf ((base ++ ".html".data).drop i) = true)) :
    pyReplace ".html".data [] (base ++ ".html".data) = base := by
  induction base with
  | nil => decide
  | cons b bs ih =>
    have h0 : ¬ (".html".data.isPrefixOf (b :: (bs ++ ".html".data)) = true) := by
      have h' := h 0 (by simp)
      simp only [List.drop_zero, List.cons_append] at h'
      exact h'
    have hcond :
        ¬ ((".html".data.isPrefixOf (b :: (bs ++ ".html".data))
            && !".html".data.isEmpty) = true) := by
      intro hc
      exact h0 (Bool.and_eq_true _ _ |>.mp hc).1
    rw [List.cons_append]
    show pyReplaceAux ".html".data [] 0 (b :: (bs ++ ".html".data)) = b :: bs
    rw [pyReplaceAux, if_neg hcond]
    have hsh : ∀ i, i < bs.length →
        ¬ (".html".data.isPrefixOf ((bs ++ ".html".data).drop i) = true) := by
      intro i hi
      have h' := h (i + 1) (by simp only [List.length_cons]; omega)
      simp only [List.cons_append, List.drop_succ_cons] at h'
      exact h'
    rw [show pyReplaceAux ".html".data [] 0 (bs ++ ".html".data)
          = pyReplace ".html".data [] (bs ++ ".html".data) from rfl, ih hsh]

/-! ## The heading search -/

theorem findIdxFrom_eq_none (p : Node → Bool) :
    ∀ l : List Node, (∀ x ∈ l, p x = false) → findIdxFrom p l = none := by
  intro l
  induction l with
  | nil => intro _; rfl
  | cons x xs ih =>
    intro h
    have hx : p x = false := h x (List.mem_cons_self x xs)
    simp only [findIdxFrom, hx, Bool.false_eq_true, if_false,
      ih (fun y hy => h y (List.mem_cons.mpr (Or.inr hy))), Option.map_none']

/-! ## Inverting a successful extraction -/

theorem extract_some_inv (soup : Node) (url : String) (e : RecordEntry)
    (he : extract_record_data soup url = some e) :
    ∃ h1 table,
      (descendants soup).find? (isNamedTag "h1") = some h1 ∧
      findFieldsTable soup = some table ∧
      e = { recordName := getTextStrip h1
            recordInternalId := recordInternalIdOfUrl url
            fields := extractFields table } := by
  simp only [extract_record_data] at he
  split at he
  · exact Option.noConfusion he
  · rename_i h1 hh1
    split at he
    · exact Option.noConfusion he
    · rename_i table htab
      simp only [Option.some.injEq] at he
      exact ⟨h1, table, hh1, htab, he.symm⟩

/-! ## Claim theorems -/

/-- C1: for every record page whose Fields table was located, the number of
field descriptors in the emitted record entry equals the table's row count
minus one (the header row) minus the number of non-header rows with fewer
than six cells, which are dropped silently. -/
theorem c1_field_descriptor_count (soup : Node) (url : String) (e : RecordEntry) (table : Node)
    (he : extract_record_data soup url = some e)
    (ht : findFieldsTable soup = some table)
    (hr : tableRows table ≠ []) :
    e.fields.length
      = (tableRows table).length - 1
        - ((tableRows table).drop 1).countP (fun r => decide ((rowCells r).length < 6)) := by
  obtain ⟨h1, table', hh1, htab, hE⟩ := extract_some_inv soup url e he
  rw [ht] at htab
  injection htab with htab
  subst htab
  rw [hE]
  show (extractFields table).length = _
  rw [extractFields]
  have hlen := length_filterMap_parse ((tableRows table).drop 1)
  have hpos : 0 < (tableRows table).length := List.length_pos.mpr hr
  have hdrop : ((tableRows table).drop 1).length = (tableRows table).length - 1 :=
    List.length_drop 1 (tableRows table)
  omega

/-- The record entry extracted from `fixtureDoc`. -/
def c1entry : RecordEntry :=
  { recordName := "Widget"
    recordInternalId := "widget"
    fields := [{ internalId := "amount", type := "currency", nlsapiSubmitField := "T",
                 label := "Amount", required := true, help := "Help text" }] }

theorem c1_field_descriptor_count_witness :
    extract_record_data fixtureDoc "https://h/a/record/widget.html" = some c1entry ∧
    findFieldsTable fixtureDoc = some fixtureTable ∧
    tableRows fixtureTable ≠ [] ∧
    c1entry.fields.length
      = (tableRows fixtureTable).length - 1
        - ((tableRows fixtureTable).drop 1).countP (fun r => decide ((rowCells r).length < 6)) :=
  ⟨by decide, by decide, by decide,
   c1_field_descriptor_count fixtureDoc "https://h/a/record/widget.html" c1entry fixtureTable
     (by decide) (by decide) (by decide)⟩

/-- C2, counterexample: the claim declares that a fifth cell reading "TRUE "
(with a trailing space) yields `required = false`; the code strips the cell
text before comparing, so the parsed descriptor has `required = true`. -/
theorem c2_counterexample :
    ¬ ((parse_field_row trueSpaceRow).map FieldDescriptor.required = some false) ∧
    (parse_field_row trueSpaceRow).map FieldDescriptor.required = some true := by
  constructor
  · decide
  · decide

/-- C2 as amended: for every parsed row, `required` is true iff the stripped
text of the row's fifth cell, case-folded, equals "true"; in particular a
cell reading "TRUE " (trailing space) yields true, because stripping happens
before the comparison. -/
theorem c2_required_iff (row : Node) (d : FieldDescriptor) (c : Node)
    (hp : parse_field_row row = some d) (hc : (rowCells row)[4]? = some c) :
    (d.required = true ↔ pyLower (getTextStrip c) = "true") := by
  simp only [parse_field_row] at hp
  split_ifs at hp with h
  have hb : 4 < (rowCells row).length := by omega
  rw [List.getElem?_eq_getElem hb] at hc
  simp only [Option.some.injEq] at hc hp
  subst hc
  rw [← hp]
  exact beq_iff_eq

/-- The descriptor parsed from `trueSpaceRow`. -/
def c2desc : FieldDescriptor :=
  { internalId := "id", type := "ty", nlsapiSubmitField := "nl",
    label := "lb", required := true, help := "hp" }

/-- The fifth cell of `trueSpaceRow`. -/
def c2cell : Node := .elem "td" [] [.text "TRUE "]

theorem c2_required_iff_witness :
    (c2desc.required = true ↔ pyLower (getTextStrip c2cell) = "true") :=
  c2_required_iff trueSpaceRow c2desc c2cell (by decide) (by decide)

/-- Splitting off a leading separator. -/
theorem pySplit_sep_cons (sep : Char) (ys : List Char) :
    pySplit sep (sep :: ys) = [] :: pySplit sep ys := by
  simp [pySplit]

/-- C3: href resolution in link discovery has exactly three cases — an
`http...` href passes through unchanged; a root-relative href is prefixed
with the start URL's scheme and host; any other href is joined to the start
URL's parent path with a slash — with the two concrete resolutions named in
the specification. -/
theorem c3_href_resolution (href : String) :
    (∀ s : String, pyStartsWith href "http" = true → makeFullUrl s href = href) ∧
    (∀ (s : String) (proto host rest : List Char),
      pyStartsWith href "http" = false → pyStartsWith href "/" = true →
      '/' ∉ proto → '/' ∉ host →
      s.data = proto ++ '/' :: '/' :: (host ++ '/' :: rest) →
      makeFullUrl s href = String.mk (proto ++ '/' :: '/' :: host) ++ href) ∧
    (∀ (s : String) (t lastseg : List Char),
      pyStartsWith href "http" = false → pyStartsWith href "/" = false →
      '/' ∉ lastseg →
      s.data = t ++ '/' :: lastseg →
      makeFullUrl s href = String.mk t ++ "/" ++ href) ∧
    makeFullUrl "https://h/a/b/c.html" "/record/x.html" = "https://h/record/x.html" ∧
    makeFullUrl "https://h/a/b/c.html" "x.html" = "https://h/a/b/x.html" := by
  refine ⟨?_, ?_, ?_, by decide, by decide⟩
  · intro s h
    simp [makeFullUrl, h]
  · intro s proto host rest h1 h2 hp hh hdata
    have hsplit : pySplit '/' s.data = proto :: [] :: host :: pySplit '/' rest := by
      rw [hdata, pySplit_append '/' proto _ hp, pySplit_sep_cons,
        pySplit_append '/' host _ hh]
    simp only [makeFullUrl, h1, Bool.false_eq_true, if_false, h2, if_true, hsplit]
    rfl
  · intro s t lastseg h1 h2 hl hdata
    have hsplit : pySplit '/' s.data = pySplit '/' t ++ [lastseg] := by
      rw [hdata, pySplit_concat_last '/' lastseg hl]
    simp only [makeFullUrl, h1, Bool.false_eq_true, if_false, h2, if_true, hsplit,
      List.dropLast_concat, pyJoin_pySplit]

theorem c3_href_resolution_witness :
    makeFullUrl "https://h/a/b/c.html" "x.html" = String.mk "https://h/a/b".data ++ "/" ++ "x.html" :=
  (c3_href_resolution "x.html").2.2.1 "https://h/a/b/c.html" "https://h/a/b".data "c.html".data
    (by decide) (by decide) (by decide) (by decide)

/-- C4, counterexample: for the URL `https://h/script/record/x.html.html` the
extraction succeeds but `recordInternalId` is "x" — `replace('.html', '')`
removes every occurrence — while the trailing path segment with its extension
stripped is "x.html". -/
theorem c4_counterexample :
    ¬ (∀ e : RecordEntry,
        extract_record_data fixtureDoc "https://h/script/record/x.html.html" = some e →
        e.recordInternalId = specRecordInternalId "https://h/script/record/x.html.html") := by
  intro hcl
  have h := hcl
    { recordName := "Widget", recordInternalId := "x",
      fields := [{ internalId := "amount", type := "currency", nlsapiSubmitField := "T",
                   label := "Amount", required := true, help := "Help text" }] }
    (by decide)
  revert h
  decide

/-- C4 as amended: for every successfully extracted record page,
`recordInternalId` equals the trailing path segment of the source URL with
every occurrence of the substring ".html" removed — which coincides with
stripping the ".html" extension whenever ".html" occurs only as the final
extension — and it is computed from the URL alone, never from page
content. -/
theorem c4_record_internal_id (soup : Node) (url : String) (e : RecordEntry)
    (he : extract_record_data soup url = some e) :
    e.recordInternalId
      = String.mk (pyReplace ".html".data [] ((pySplit '/' url.data).getLastD [])) ∧
    (∀ base : List Char,
      (pySplit '/' url.data).getLastD [] = base ++ ".html".data →
      (∀ i, i < base.length →
        ¬ (".html".data.isPrefixOf ((base ++ ".html".data).drop i) = true)) →
      e.recordInternalId = String.mk base) := by
  obtain ⟨h1, table, hh1, htab, hE⟩ := extract_some_inv soup url e he
  constructor
  · rw [hE]
    rfl
  · intro base hbase hocc
    rw [hE]
    show recordInternalIdOfUrl url = String.mk base
    rw [recordInternalIdOfUrl, hbase, pyReplace_single_trailing_occurrence base hocc]

theorem c4_record_internal_id_witness :
    c1entry.recordInternalId = String.mk "widget".data :=
  (c4_record_internal_id fixtureDoc "https://h/a/record/widget.html" c1entry (by decide)).2
    "widget".data (by decide) (by decide)

/-- C5: a record page with no heading at any of the checked levels (h2–h5)
whose text contains "Fields" yields no record entry, and the processing loop
simply continues with the remaining pages. -/
theorem c5_missing_fields_heading (soup : Node) (url : String)
    (fetch : String → Option Node) (pre post : List String)
    (hnone : ∀ n ∈ preorderNode soup, ∀ t ∈ (["h2", "h3", "h4", "h5"] : List String),
      ¬ (isNamedTag t n = true ∧ containsSub (getTextRaw n) "Fields" = true)) :
    extract_record_data soup url = none ∧
    ∀ u, fetch u = some soup →
      processUrls fetch (pre ++ u :: post) = processUrls fetch pre ++ processUrls fetch post := by
  have hmatch : ∀ t ∈ (["h2", "h3", "h4", "h5"] : List String), ∀ n ∈ preorderNode soup,
      headingMatches t n = false := by
    intro t ht n hn
    cases hx : headingMatches t n with
    | false => rfl
    | true =>
      exfalso
      rw [headingMatches, Bool.and_eq_true] at hx
      obtain ⟨htag, hstr⟩ := hx
      cases hs : nodeString n with
      | none =>
        simp only [hs] at hstr
        exact Bool.noConfusion hstr
      | some s =>
        simp only [hs, Bool.and_eq_true] at hstr
        have hraw : getTextRaw n = s := getTextRaw_of_nodeString n s hs
        exact hnone n hn t ht ⟨htag, by rw [hraw]; exact hstr.2⟩
  have hidx : fieldsHeadingIdx soup = none := by
    rw [fieldsHeadingIdx, List.findSome?_eq_none_iff]
    intro t ht
    exact findIdxFrom_eq_none _ _ (fun n hn => hmatch t ht n hn)
  have hex : ∀ v : String, extract_record_data soup v = none := by
    intro v
    cases hh : (descendants soup).find? (isNamedTag "h1") with
    | none => simp [extract_record_data, hh]
    | some h1 => simp [extract_record_data, hh, findFieldsTable, hidx]
  refine ⟨hex url, ?_⟩
  intro u hu
  simp [processUrls, List.filterMap_append, List.filterMap_cons, processUrl, hu, hex u]

theorem c5_missing_fields_heading_witness :
    extract_record_data noFieldsDoc "https://h/a/record/widget.html" = none ∧
    processUrls (fun _ => some noFieldsDoc)
        (["https://h/a/record/a.html"] ++ "https://h/a/record/widget.html" :: ["https://h/a/record/b.html"])
      = processUrls (fun _ => some noFieldsDoc) ["https://h/a/record/a.html"]
        ++ processUrls (fun _ => some noFieldsDoc) ["https://h/a/record/b.html"] := by
  have h := c5_missing_fields_heading noFieldsDoc "https://h/a/record/widget.html"
    (fun _ => some noFieldsDoc) ["https://h/a/record/a.html"] ["https://h/a/record/b.html"]
    (by decide)
  exact ⟨h.1, h.2 "https://h/a/record/widget.html" rfl⟩

/-- C6: when link discovery yields no links the run is terminal — the
processing loop is skipped and no result list is produced. -/
theorem c6_empty_discovery_aborts (fetch : String → Option Node) (soup : Node) (startUrl : String)
    (h : get_record_links soup startUrl = []) :
    mainRun fetch soup startUrl = none := by
  simp [mainRun, h]

theorem c6_empty_discovery_aborts_witness :
    mainRun (fun _ => none) noLinksDoc "https://h/a/b/c.html" = none :=
  c6_empty_discovery_aborts (fun _ => none) noLinksDoc "https://h/a/b/c.html" (by decide)

/-- The two strategies test the same candidate condition (the conjuncts are
merely written in the opposite order) and resolve URLs identically. -/
theorem candidate2_eq_candidate1 (u : String) (link : Node) :
    candidate2 u link = candidate1 u link := by
  simp only [candidate1, candidate2]
  cases h : getAttr link "href"
  · rfl
  · simp only [Bool.and_comm]

/-- Every navigation container found by strategy 2 is a descendant of the
document. -/
theorem navContainers_mem_descendants (soup c : Node) (hc : c ∈ navContainers soup) :
    c ∈ descendants soup := by
  simp only [navContainers, List.mem_append, findAll, List.mem_filter] at hc
  rcases hc with ((((h | h) | h) | h) | h)
  · exact h.1
  · exact h.1
  · exact h.1.1
  · exact h.1.1
  · exact h.1.1

/-- Every URL produced by the navigation-container pass is already produced
by the whole-document pass. -/
theorem strategy2_subset (soup : Node) (u : String) :
    ∀ z ∈ strategy2Urls soup u, z ∈ strategy1Urls soup u := by
  intro z hz
  simp only [strategy2Urls, List.mem_flatMap] at hz
  obtain ⟨c, hc, hz⟩ := hz
  rw [List.mem_filterMap] at hz
  obtain ⟨link, hlink, hcand⟩ := hz
  rw [anchorsWithHref, List.mem_filter] at hlink
  have hld : link ∈ descendants soup :=
    mem_descendants_trans soup c link (navContainers_mem_descendants soup c hc) hlink.1
  rw [strategy1Urls, List.mem_filterMap]
  refine ⟨link, ?_, ?_⟩
  · rw [anchorsWithHref, List.mem_filter]
    exact ⟨hld, hlink.2⟩
  · rw [← candidate2_eq_candidate1]
    exact hcand

/-- C7: link discovery deduplicates — the returned list has no duplicates,
and any URL contributed by an anchor of either pass appears in it exactly
once. -/
theorem c7_no_duplicates (soup : Node) (u : String) :
    (get_record_links soup u).Nodup ∧
    ∀ url, url ∈ strategy1Urls soup u ++ strategy2Urls soup u →
      (get_record_links soup u).count url = 1 := by
  have hnd : (get_record_links soup u).Nodup :=
    (pairwise_sortedDedup _).imp (fun h => ne_of_lt h)
  refine ⟨hnd, ?_⟩
  intro url hurl
  have hmem : url ∈ get_record_links soup u := by
    show url ∈ sortedDedup _
    rw [mem_sortedDedup]
    exact hurl
  exact List.count_eq_one_of_mem hnd hmem

theorem c7_no_duplicates_witness :
    (get_record_links twoAnchorsDoc "https://h/a/b/c.html").count "https://h/record/x.html" = 1 :=
  (c7_no_duplicates twoAnchorsDoc "https://h/a/b/c.html").2 "https://h/record/x.html" (by decide)

/-- C8: the remote-execution wrappers fail at construction when no (non-empty)
API token is supplied as an argument or found in the environment, and succeed
when a token is present. -/
theorem c8_token_required (env : String → Option String) :
    (env "APIFY_API_TOKEN" = none →
      apifyWebScraperInit none env
        = Except.error "Apify API token is required. Set APIFY_API_TOKEN environment variable or pass api_token parameter.") ∧
    (∀ t : String, t ≠ "" → apifyWebScraperInit (some t) env = Except.ok t) ∧
    (∀ t : String, t ≠ "" → env "APIFY_API_TOKEN" = some t →
      apifyWebScraperInit none env = Except.ok t) ∧
    (env "APIFY_TOKEN" = none →
      get_apify_client env
        = Except.error "APIFY_TOKEN is not set. Copy .env.example to .env and provide your token.") ∧
    (∀ t : String, t ≠ "" → env "APIFY_TOKEN" = some t → get_apify_client env = Except.ok t) := by
  refine ⟨?_, ?_, ?_, ?_, ?_⟩
  · intro h
    simp [apifyWebScraperInit, pyOrStr, h]
  · intro t ht
    simp [apifyWebScraperInit, pyOrStr, ht]
  · intro t ht h
    simp [apifyWebScraperInit, pyOrStr, h, ht]
  · intro h
    simp [get_apify_client, h]
  · intro t ht h
    simp [get_apify_client, h, ht]

theorem c8_token_required_witness :
    apifyWebScraperInit none envEmpty
      = Except.error "Apify API token is required. Set APIFY_API_TOKEN environment variable or pass api_token parameter." ∧
    apifyWebScraperInit (some "tok") envEmpty = Except.ok "tok" ∧
    apifyWebScraperInit none envApiToken = Except.ok "tok" ∧
    get_apify_client envEmpty
      = Except.error "APIFY_TOKEN is not set. Copy .env.example to .env and provide your token." ∧
    get_apify_client envToken = Except.ok "tok" :=
  ⟨(c8_token_required envEmpty).1 rfl,
   (c8_token_required envEmpty).2.1 "tok" (by decide),
   (c8_token_required envApiToken).2.2.1 "tok" (by decide) rfl,
   (c8_token_required envEmpty).2.2.2.1 rfl,
   (c8_token_required envToken).2.2.2.2 "tok" (by decide) rfl⟩

/-- C9: the navigation-container pass is redundant — the final link list
equals the one produced by the whole-document anchor scan alone, because
every anchor inside a navigation container is an anchor of the document and
both passes use the same candidate test and URL resolution. -/
theorem c9_nav_pass_redundant (soup : Node) (u : String) :
    get_record_links soup u = sortedDedup (strategy1Urls soup u) := by
  apply sorted_eq_of_mem_iff
  · exact pairwise_sortedDedup _
  · exact pairwise_sortedDedup _
  · intro z
    simp only [get_record_links, mem_sortedDedup, List.mem_append]
    constructor
    · rintro (h | h)
      · exact h
      · exact strategy2_subset soup u z h
    · exact Or.inl

/-- C10: the returned link list is deterministic in order — strictly
ascending in the lexicographic string order, hence duplicate-free. -/
theorem c10_links_sorted (soup : Node) (u : String) :
    List.Pairwise (· < ·) (get_record_links soup u) ∧ (get_record_links soup u).Nodup := by
  have hp : List.Pairwise (· < ·) (get_record_links soup u) := pairwise_sortedDedup _
  exact ⟨hp, hp.imp (fun h => ne_of_lt h)⟩

end Scraper
